import Mathlib

/-!
# Verification of the crown-shapefile loading pipeline

Shallow embedding of `src/lib/utils/shapefileLoader.ts` from the
`canopy.app` repository, together with proofs of the specified
properties of its clipping, projection and orchestration code.

Coordinates (JS `number`s) are modelled as rationals `ℚ`, so all
arithmetic is exact; statements the spec qualifies with "within
floating-point tolerance" are proved exactly here.  JS division by
zero produces `Infinity`/`NaN`; in `ℚ` it produces `0`.  The safety
theorem for the clipper shows the divisor is nonzero at every call
actually made, so the two semantics agree on every reachable path.
-/

namespace Canopy

/-- A 2-D point `[x, y]` (in the source, a two-element `number[]`). -/
abbrev Point : Type := ℚ × ℚ

/-- `interface Bounds { minX; minY; maxX; maxY }` from the source. -/
structure Bounds where
  minX : ℚ
  minY : ℚ
  maxX : ℚ
  maxY : ℚ
deriving Repr, DecidableEq

/-- The loop body of `clipEdge`: walks the vertex list with the running
`prev` vertex, emitting—per iteration and in source order—the
intersection point (when the edge from `prev` to `curr` straddles the
boundary) and `curr` itself (when `curr` is inside). -/
def clipEdgeGo (inside : Point → Bool) (intersect : Point → Point → Point) :
    Point → List Point → List Point
  | _, [] => []
  | prev, curr :: rest =>
    (if inside curr then
      (if inside prev then [curr] else [intersect prev curr, curr])
     else if inside prev then [intersect prev curr] else []) ++
    clipEdgeGo inside intersect curr rest

/-- `clipEdge(polygon, inside, intersect)` from the source: one
Sutherland–Hodgman half-plane pass.  An empty polygon returns the empty
output; otherwise `prev` starts at the last vertex (the ring is
implicitly closed) and the loop runs over all vertices in order. -/
def clipEdge (polygon : List Point) (inside : Point → Bool)
    (intersect : Point → Point → Point) : List Point :=
  match polygon.getLast? with
  | none => []
  | some last => clipEdgeGo inside intersect last polygon

/-- The `inside` predicate of the left (`minX`) pass. -/
def insideLeft (b : Bounds) (p : Point) : Bool := b.minX ≤ p.1

/-- The `intersect` function of the left (`minX`) pass:
`t = (minX − x1)/(x2 − x1)`, result `[minX, y1 + t·(y2 − y1)]`. -/
def intersectLeft (b : Bounds) (p₁ p₂ : Point) : Point :=
  let t := (b.minX - p₁.1) / (p₂.1 - p₁.1)
  (b.minX, p₁.2 + t * (p₂.2 - p₁.2))

/-- The `inside` predicate of the right (`maxX`) pass. -/
def insideRight (b : Bounds) (p : Point) : Bool := p.1 ≤ b.maxX

/-- The `intersect` function of the right (`maxX`) pass. -/
def intersectRight (b : Bounds) (p₁ p₂ : Point) : Point :=
  let t := (b.maxX - p₁.1) / (p₂.1 - p₁.1)
  (b.maxX, p₁.2 + t * (p₂.2 - p₁.2))

/-- The `inside` predicate of the bottom (`minY`) pass. -/
def insideBottom (b : Bounds) (p : Point) : Bool := b.minY ≤ p.2

/-- The `intersect` function of the bottom (`minY`) pass. -/
def intersectBottom (b : Bounds) (p₁ p₂ : Point) : Point :=
  let t := (b.minY - p₁.2) / (p₂.2 - p₁.2)
  (p₁.1 + t * (p₂.1 - p₁.1), b.minY)

/-- The `inside` predicate of the top (`maxY`) pass. -/
def insideTop (b : Bounds) (p : Point) : Bool := p.2 ≤ b.maxY

/-- The `intersect` function of the top (`maxY`) pass. -/
def intersectTop (b : Bounds) (p₁ p₂ : Point) : Point :=
  let t := (b.maxY - p₁.2) / (p₂.2 - p₁.2)
  (p₁.1 + t * (p₂.1 - p₁.1), b.maxY)

/-- `clipPolygonToBounds(polygon, bounds)` from the source:
Sutherland–Hodgman clipping against the rectangle, as four sequential
half-plane passes (left, right, bottom, top). -/
def clipPolygonToBounds (polygon : List Point) (b : Bounds) : List Point :=
  let o₁ := clipEdge polygon (insideLeft b) (intersectLeft b)
  let o₂ := clipEdge o₁ (insideRight b) (intersectRight b)
  let o₃ := clipEdge o₂ (insideBottom b) (intersectBottom b)
  clipEdge o₃ (insideTop b) (intersectTop b)

/-! ## Orchestrator model

`loadCrownShapefile` is `async`: it `fetch`es the geometry (`.shp`) and
attribute (`.dbf`) resources, decodes them with the external
`shapefile.read`, and processes the features.  The effectful world is
modelled explicitly: a `World` records what each `fetch` and each
`shapefile.read` call would yield.  A JS promise that resolves with a
value `v` is `Except.ok v`; a promise that rejects (an uncaught
exception reaching the caller) is `Except.error ()`.

One JS subtlety is modelled faithfully: inside the `try` block the
source has `return loadGeometryOnly(...)` *without* `await`.  In an
async function, returning a promise from a `try` block does not run the
`catch` handler when that promise later rejects — only awaited
rejections are caught.  Hence a rejection arising inside
`loadGeometryOnly` (a `shapefile.read` failure in geometry-only mode)
propagates to the caller, while every other failure path is converted
to `[]` by the `catch`. -/

/-- Opaque handle standing for a JS `ArrayBuffer`. -/
abbrev Buffer : Type := ℕ

/-- Outcome of a `fetch` call: either the promise resolves with a
`Response` (carrying `ok`, `status`, and the body buffer) or it rejects
(network failure). -/
inductive FetchOutcome where
  | success (ok : Bool) (status : ℕ) (buffer : Buffer)
  | failure
deriving Repr, DecidableEq

/-- An attribute record (`feature.properties`): field name to value. -/
abbrev Props : Type := List (String × String)

/-- A GeoJSON geometry as produced by `shapefile.read`: a type tag and
polygon coordinates (a list of rings). -/
structure Geometry where
  type : String
  coordinates : List (List Point)
deriving Repr, DecidableEq

/-- A GeoJSON feature: `geometry` may be `null`, `properties` may be
`null`/`undefined`. -/
structure Feature where
  geometry : Option Geometry
  properties : Option Props
deriving Repr, DecidableEq

/-- The collection resolved by `shapefile.read`. -/
structure FeatureCollection where
  features : List Feature
deriving Repr, DecidableEq

/-- `interface CrownPolygon` from the source. -/
structure CrownPolygon where
  type : String
  coordinates : List (List Point)
  properties : Props
deriving Repr, DecidableEq

/-- The effectful environment of one load: the result of `fetch` on
each path, of `shapefile.read(shp, dbf)` on each buffer pair, and of
`shapefile.read(shp)` on each single buffer. -/
structure World where
  fetch : String → FetchOutcome
  readBoth : Buffer → Buffer → Except Unit FeatureCollection
  readGeom : Buffer → Except Unit FeatureCollection

/-- The per-feature body of the `forEach` in `loadCrownShapefile`: keep
a feature whose geometry is a non-null `Polygon`, clip each ring to the
bounds, keep rings with more than 2 vertices, and build a
`CrownPolygon` (with `feature.properties || {}`) when at least one ring
survives. -/
def processFeature (bounds : Bounds) (f : Feature) : Option CrownPolygon :=
  match f.geometry with
  | none => none
  | some g =>
    if g.type = "Polygon" then
      let croppedCoords :=
        (g.coordinates.map fun ring => clipPolygonToBounds ring bounds).filter
          fun ring => ring.length > 2
      if croppedCoords.length > 0 then
        some { type := "Polygon", coordinates := croppedCoords,
               properties := f.properties.getD [] }
      else none
    else none

/-- The per-feature body of the `forEach` in `loadGeometryOnly`: same
as `processFeature` but `properties` is always the empty mapping. -/
def processFeatureGeomOnly (bounds : Bounds) (f : Feature) : Option CrownPolygon :=
  match f.geometry with
  | none => none
  | some g =>
    if g.type = "Polygon" then
      let croppedCoords :=
        (g.coordinates.map fun ring => clipPolygonToBounds ring bounds).filter
          fun ring => ring.length > 2
      if croppedCoords.length > 0 then
        some { type := "Polygon", coordinates := croppedCoords,
               properties := [] }
      else none
    else none

/-- `loadGeometryOnly(shpBuffer, bounds)` from the source: decode the
geometry buffer alone and process features with empty properties.  It
has no `try`/`catch`, so a `shapefile.read` rejection rejects its own
promise. -/
def loadGeometryOnly (w : World) (shpBuffer : Buffer) (bounds : Bounds) :
    Except Unit (List CrownPolygon) :=
  match w.readGeom shpBuffer with
  | .error _ => .error ()
  | .ok collection => .ok (collection.features.filterMap (processFeatureGeomOnly bounds))

/-- `startsWith` on character lists: does `pat` occur at the head? -/
def startsWithList : List Char → List Char → Bool
  | [], _ => true
  | _ :: _, [] => false
  | p :: ps, c :: cs => p == c && startsWithList ps cs

/-- JS `String.prototype.replace` with a string pattern: replace the
first occurrence of `pat` (scanning left to right) by `rep`; return the
input unchanged when `pat` does not occur. -/
def replaceFirstList (pat rep : List Char) : List Char → List Char
  | [] => if pat.isEmpty then rep else []
  | c :: cs =>
    if startsWithList pat (c :: cs) then rep ++ (c :: cs).drop pat.length
    else c :: replaceFirstList pat rep cs

/-- Does `pat` occur anywhere in the list? -/
def containsSub (pat : List Char) : List Char → Bool
  | [] => pat.isEmpty
  | c :: cs => startsWithList pat (c :: cs) || containsSub pat cs

/-- `shapefilePath.replace('.shp', '.dbf')` from the source. -/
def deriveDbfPath (shapefilePath : String) : String :=
  ⟨replaceFirstList ".shp".toList ".dbf".toList shapefilePath.toList⟩

/-- The body of `loadCrownShapefile` after both fetches have settled
with responses.  The `catch` of the source converts a thrown error to
`[]` on every path except the un-awaited `return loadGeometryOnly(...)`
(see the module comment above). -/
def loadFromResponses (w : World) (shpRes dbfRes : FetchOutcome) (bounds : Bounds) :
    Except Unit (List CrownPolygon) :=
  match shpRes, dbfRes with
  | .failure, _ => .ok []
  | .success _ _ _, .failure => .ok []
  | .success shpOk _ shpBuffer, .success dbfOk _ dbfBuffer =>
    if !shpOk then .ok []
    else if !dbfOk then loadGeometryOnly w shpBuffer bounds
    else
      match w.readBoth shpBuffer dbfBuffer with
      | .error _ => .ok []
      | .ok collection => .ok (collection.features.filterMap (processFeature bounds))

/-- `loadCrownShapefile(shapefilePath, bounds)` from the source: derive
the `.dbf` path, fetch both resources jointly (`Promise.all`: either
rejection rejects the pair and is caught, yielding `[]`), then proceed
as in `loadFromResponses`. -/
def loadCrownShapefile (w : World) (shapefilePath : String) (bounds : Bounds) :
    Except Unit (List CrownPolygon) :=
  loadFromResponses w (w.fetch shapefilePath) (w.fetch (deriveDbfPath shapefilePath)) bounds

/-- `projectToPixels(coordinates, imageBounds, imageWidth, imageHeight)`
from the source.  `imageBounds` is `[[minLat, minLon], [maxLat, maxLon]]`
while each coordinate is `[lon, lat]`; the vertical axis is flipped. -/
def projectToPixels (coordinates : List (List Point))
    (imageBounds : (ℚ × ℚ) × (ℚ × ℚ)) (imageWidth imageHeight : ℚ) :
    List (List Point) :=
  let southWest := imageBounds.1
  let northEast := imageBounds.2
  let minLat := southWest.1
  let minLon := southWest.2
  let maxLat := northEast.1
  let maxLon := northEast.2
  coordinates.map fun ring =>
    ring.map fun p =>
      ((p.1 - minLon) / (maxLon - minLon) * imageWidth,
       (maxLat - p.2) / (maxLat - minLat) * imageHeight)

/-! ## Specification-side definitions

Predicates and concrete fixtures used to state the properties; these
are not translations of source code. -/

/-- The point lies inside or on the boundary of the bounds rectangle. -/
def inRect (b : Bounds) (q : Point) : Prop :=
  b.minX ≤ q.1 ∧ q.1 ≤ b.maxX ∧ b.minY ≤ q.2 ∧ q.2 ≤ b.maxY

instance (b : Bounds) (q : Point) : Decidable (inRect b q) := by
  unfold inRect; infer_instance

/-- The per-point mapping applied by `projectToPixels`. -/
def projPoint (imageBounds : (ℚ × ℚ) × (ℚ × ℚ)) (imageWidth imageHeight : ℚ)
    (p : Point) : Point :=
  ((p.1 - imageBounds.1.2) / (imageBounds.2.2 - imageBounds.1.2) * imageWidth,
   (imageBounds.2.1 - p.2) / (imageBounds.2.1 - imageBounds.1.1) * imageHeight)

/-- The bounds `{minX: 0, minY: 0, maxX: 5, maxY: 5}` of the spec's
test scenarios. -/
def testBounds : Bounds := ⟨0, 0, 5, 5⟩

/-- The partially-overlapping square of the spec's test scenario. -/
def overlapRing : List Point := [(-1, -1), (-1, 1), (1, 1), (1, -1)]

/-- A square that surrounds `testBounds` entirely: every vertex is
outside the bounds rectangle, yet the ring's interior covers it. -/
def surroundRing : List Point := [(-10, -10), (-10, 10), (10, 10), (10, -10)]

/-- The fully-contained square of the spec's test scenario. -/
def insideRing : List Point := [(1, 1), (1, 2), (2, 2), (2, 1)]

/-- A feature whose single ring lies fully inside `testBounds`. -/
def insideFeature : Feature :=
  { geometry := some { type := "Polygon", coordinates := [insideRing] },
    properties := some [("species", "oak")] }

/-- A world in which both fetches succeed and decoding succeeds with a
single polygon feature. -/
def happyWorld : World :=
  { fetch := fun _ => .success true 200 0,
    readBoth := fun _ _ => .ok ⟨[insideFeature]⟩,
    readGeom := fun _ => .ok ⟨[insideFeature]⟩ }

/-- A world in which the geometry fetch succeeds, the attribute fetch
resolves with HTTP 404 (`ok = false`), and geometry-only decoding
fails: the un-awaited `loadGeometryOnly` rejection escapes the
`catch`. -/
def dbf404ReadFailWorld : World :=
  { fetch := fun p => if p = "crowns.shp" then .success true 200 0
                      else .success false 404 1,
    readBoth := fun _ _ => .ok ⟨[insideFeature]⟩,
    readGeom := fun _ => .error () }

/-- A world in which the geometry fetch succeeds but the attribute
fetch rejects (network failure); decoding either buffer would
succeed. -/
def dbfNetworkFailWorld : World :=
  { fetch := fun p => if p = "crowns.shp" then .success true 200 0
                      else .failure,
    readBoth := fun _ _ => .ok ⟨[insideFeature]⟩,
    readGeom := fun _ => .ok ⟨[insideFeature]⟩ }

/-- A world like `dbf404ReadFailWorld` but where geometry-only decoding
succeeds, exercising the intended fallback path. -/
def dbf404World : World :=
  { fetch := fun p => if p = "crowns.shp" then .success true 200 0
                      else .success false 404 1,
    readBoth := fun _ _ => .ok ⟨[insideFeature]⟩,
    readGeom := fun _ => .ok ⟨[insideFeature]⟩ }

/-- The `CrownPolygon` produced from `insideFeature` by the joint
(geometry + attributes) processing path. -/
def crownOak : CrownPolygon :=
  { type := "Polygon", coordinates := [insideRing],
    properties := [("species", "oak")] }

/-- The `CrownPolygon` produced from `insideFeature` by the
geometry-only processing path: same rings, empty properties. -/
def crownOakBare : CrownPolygon :=
  { type := "Polygon", coordinates := [insideRing], properties := [] }

/-! ## Basic lemmas about the inside predicates -/

theorem insideLeft_iff (b : Bounds) (p : Point) :
    insideLeft b p = true ↔ b.minX ≤ p.1 := by
  simp [insideLeft]

theorem insideRight_iff (b : Bounds) (p : Point) :
    insideRight b p = true ↔ p.1 ≤ b.maxX := by
  simp [insideRight]

theorem insideBottom_iff (b : Bounds) (p : Point) :
    insideBottom b p = true ↔ b.minY ≤ p.2 := by
  simp [insideBottom]

theorem insideTop_iff (b : Bounds) (p : Point) :
    insideTop b p = true ↔ p.2 ≤ b.maxY := by
  simp [insideTop]

/-! ## Membership in a half-plane pass

Every vertex of `clipEdge`'s output is either an input vertex that
satisfies `inside`, or the intersection of a straddling input pair. -/

theorem clipEdgeGo_mem {inside : Point → Bool} {intersect : Point → Point → Point}
    (prev : Point) (l : List Point) (q : Point)
    (hq : q ∈ clipEdgeGo inside intersect prev l) :
    (q ∈ l ∧ inside q = true) ∨
      ∃ a c, (a = prev ∨ a ∈ l) ∧ c ∈ l ∧ inside a ≠ inside c ∧ q = intersect a c := by
  induction l generalizing prev with
  | nil => simp [clipEdgeGo] at hq
  | cons curr rest ih =>
    rw [clipEdgeGo, List.mem_append] at hq
    rcases hq with hq | hq
    · cases hc : inside curr <;> cases hp : inside prev <;> simp [hc, hp] at hq
      · subst hq
        exact Or.inr ⟨prev, curr, Or.inl rfl, List.mem_cons_self _ _,
          by simp [hp, hc], rfl⟩
      · rcases hq with rfl | rfl
        · exact Or.inr ⟨prev, curr, Or.inl rfl, List.mem_cons_self _ _,
            by simp [hp, hc], rfl⟩
        · exact Or.inl ⟨List.mem_cons_self _ _, hc⟩
      · subst hq
        exact Or.inl ⟨List.mem_cons_self _ _, hc⟩
    · rcases ih curr hq with ⟨hmem, hin⟩ | ⟨a, c, ha, hc, hstrad, hval⟩
      · exact Or.inl ⟨List.mem_cons_of_mem _ hmem, hin⟩
      · refine Or.inr ⟨a, c, ?_, List.mem_cons_of_mem _ hc, hstrad, hval⟩
        rcases ha with rfl | ha
        · exact Or.inr (List.mem_cons_self _ _)
        · exact Or.inr (List.mem_cons_of_mem _ ha)

theorem clipEdge_mem {inside : Point → Bool} {intersect : Point → Point → Point}
    {polygon : List Point} {q : Point}
    (hq : q ∈ clipEdge polygon inside intersect) :
    (q ∈ polygon ∧ inside q = true) ∨
      ∃ a c, a ∈ polygon ∧ c ∈ polygon ∧ inside a ≠ inside c ∧ q = intersect a c := by
  unfold clipEdge at hq
  rcases hlast : polygon.getLast? with _ | last
  · rw [hlast] at hq; simp at hq
  · rw [hlast] at hq
    have hlastmem : last ∈ polygon := by
      obtain ⟨hne, heq⟩ := List.mem_getLast?_eq_getLast
        (show last ∈ polygon.getLast? by rw [hlast]; rfl)
      exact heq ▸ List.getLast_mem hne
    rcases clipEdgeGo_mem last polygon q hq with ⟨hmem, hin⟩ | ⟨a, c, ha, hc, hstrad, hval⟩
    · exact Or.inl ⟨hmem, hin⟩
    · refine Or.inr ⟨a, c, ?_, hc, hstrad, hval⟩
      rcases ha with rfl | ha
      · exact hlastmem
      · exact ha

/-! ## Degenerate passes -/

theorem clipEdgeGo_all_inside {inside : Point → Bool} {intersect : Point → Point → Point}
    (prev : Point) (l : List Point) (hprev : inside prev = true)
    (hl : ∀ p ∈ l, inside p = true) :
    clipEdgeGo inside intersect prev l = l := by
  induction l generalizing prev with
  | nil => rfl
  | cons curr rest ih =>
    have hc : inside curr = true := hl curr (List.mem_cons_self _ _)
    rw [clipEdgeGo, hc, hprev]
    simp only [if_true]
    rw [ih curr hc fun p hp => hl p (List.mem_cons_of_mem _ hp)]
    rfl

theorem clipEdge_all_inside {inside : Point → Bool} {intersect : Point → Point → Point}
    (polygon : List Point) (hl : ∀ p ∈ polygon, inside p = true) :
    clipEdge polygon inside intersect = polygon := by
  unfold clipEdge
  rcases hlast : polygon.getLast? with _ | last
  · rw [List.getLast?_eq_none_iff] at hlast
    rw [hlast]
  · have hlastmem : last ∈ polygon := by
      obtain ⟨hne, heq⟩ := List.mem_getLast?_eq_getLast
        (show last ∈ polygon.getLast? by rw [hlast]; rfl)
      exact heq ▸ List.getLast_mem hne
    exact clipEdgeGo_all_inside last polygon (hl last hlastmem) hl

theorem clipEdgeGo_all_outside {inside : Point → Bool} {intersect : Point → Point → Point}
    (prev : Point) (l : List Point) (hprev : inside prev = false)
    (hl : ∀ p ∈ l, inside p = false) :
    clipEdgeGo inside intersect prev l = [] := by
  induction l generalizing prev with
  | nil => rfl
  | cons curr rest ih =>
    have hc : inside curr = false := hl curr (List.mem_cons_self _ _)
    rw [clipEdgeGo, hc, hprev]
    simp only [Bool.false_eq_true, if_false, List.nil_append]
    exact ih curr hc fun p hp => hl p (List.mem_cons_of_mem _ hp)

theorem clipEdge_all_outside {inside : Point → Bool} {intersect : Point → Point → Point}
    (polygon : List Point) (hl : ∀ p ∈ polygon, inside p = false) :
    clipEdge polygon inside intersect = [] := by
  unfold clipEdge
  rcases hlast : polygon.getLast? with _ | last
  · rfl
  · have hlastmem : last ∈ polygon := by
      obtain ⟨hne, heq⟩ := List.mem_getLast?_eq_getLast
        (show last ∈ polygon.getLast? by rw [hlast]; rfl)
      exact heq ▸ List.getLast_mem hne
    exact clipEdgeGo_all_outside last polygon (hl last hlastmem) hl

/-! ## Interpolation arithmetic

When two values straddle a threshold `c`, the interpolation parameter
`t = (c − u)/(v − u)` lies in `[0, 1]`, and interpolating with a
parameter in `[0, 1]` stays between the endpoints. -/

theorem t_unit_of_between {u v c : ℚ} (hne : u ≠ v)
    (h : (u ≤ c ∧ c ≤ v) ∨ (v ≤ c ∧ c ≤ u)) :
    0 ≤ (c - u) / (v - u) ∧ (c - u) / (v - u) ≤ 1 := by
  rcases h with ⟨h₁, h₂⟩ | ⟨h₁, h₂⟩
  · have hpos : (0 : ℚ) < v - u := by
      rcases lt_or_eq_of_le (le_trans h₁ h₂) with h | h
      · linarith
      · exact absurd h hne
    constructor
    · exact div_nonneg (by linarith) (by linarith)
    · rw [div_le_one hpos]
      linarith
  · have hneg : v - u < 0 := by
      rcases lt_or_eq_of_le (le_trans h₁ h₂) with h | h
      · linarith
      · exact absurd h.symm hne
    have heq : (c - u) / (v - u) = (u - c) / (u - v) := by
      rw [show u - c = -(c - u) by ring, show u - v = -(v - u) by ring, neg_div_neg_eq]
    rw [heq]
    constructor
    · exact div_nonneg (by linarith) (by linarith)
    · rw [div_le_one (by linarith)]
      linarith

theorem interp_between {u v t lo hi : ℚ} (hu₁ : lo ≤ u) (hu₂ : u ≤ hi)
    (hv₁ : lo ≤ v) (hv₂ : v ≤ hi) (ht₀ : 0 ≤ t) (ht₁ : t ≤ 1) :
    lo ≤ u + t * (v - u) ∧ u + t * (v - u) ≤ hi := by
  constructor <;> nlinarith

theorem interp_lt {u v t c : ℚ} (hu : u < c) (hv : v < c)
    (ht₀ : 0 ≤ t) (ht₁ : t ≤ 1) : u + t * (v - u) < c := by
  rcases le_total u v with h | h
  · nlinarith [mul_le_mul_of_nonneg_right ht₁ (by linarith : (0 : ℚ) ≤ v - u)]
  · have hnp : t * (v - u) ≤ 0 :=
      mul_nonpos_iff.mpr (Or.inl ⟨ht₀, by linarith⟩)
    linarith

theorem interp_gt {u v t c : ℚ} (hu : c < u) (hv : c < v)
    (ht₀ : 0 ≤ t) (ht₁ : t ≤ 1) : c < u + t * (v - u) := by
  rcases le_total u v with h | h
  · have hnn : 0 ≤ t * (v - u) := mul_nonneg ht₀ (by linarith)
    linarith
  · have hf : 1 * (v - u) ≤ t * (v - u) :=
      mul_le_mul_of_nonpos_right ht₁ (by linarith)
    linarith

/-! ## Straddling pairs, concretely -/

theorem straddle_left {b : Bounds} {a c : Point}
    (h : insideLeft b a ≠ insideLeft b c) :
    (b.minX ≤ a.1 ∧ c.1 < b.minX) ∨ (a.1 < b.minX ∧ b.minX ≤ c.1) := by
  cases ha : insideLeft b a <;> cases hc : insideLeft b c <;> rw [ha, hc] at h
  · exact absurd rfl h
  · simp only [insideLeft, decide_eq_false_iff_not, not_le, decide_eq_true_eq] at ha hc
    exact Or.inr ⟨ha, hc⟩
  · simp only [insideLeft, decide_eq_false_iff_not, not_le, decide_eq_true_eq] at ha hc
    exact Or.inl ⟨ha, hc⟩
  · exact absurd rfl h

theorem straddle_right {b : Bounds} {a c : Point}
    (h : insideRight b a ≠ insideRight b c) :
    (a.1 ≤ b.maxX ∧ b.maxX < c.1) ∨ (b.maxX < a.1 ∧ c.1 ≤ b.maxX) := by
  cases ha : insideRight b a <;> cases hc : insideRight b c <;> rw [ha, hc] at h
  · exact absurd rfl h
  · simp only [insideRight, decide_eq_false_iff_not, not_le, decide_eq_true_eq] at ha hc
    exact Or.inr ⟨ha, hc⟩
  · simp only [insideRight, decide_eq_false_iff_not, not_le, decide_eq_true_eq] at ha hc
    exact Or.inl ⟨ha, hc⟩
  · exact absurd rfl h

theorem straddle_bottom {b : Bounds} {a c : Point}
    (h : insideBottom b a ≠ insideBottom b c) :
    (b.minY ≤ a.2 ∧ c.2 < b.minY) ∨ (a.2 < b.minY ∧ b.minY ≤ c.2) := by
  cases ha : insideBottom b a <;> cases hc : insideBottom b c <;> rw [ha, hc] at h
  · exact absurd rfl h
  · simp only [insideBottom, decide_eq_false_iff_not, not_le, decide_eq_true_eq] at ha hc
    exact Or.inr ⟨ha, hc⟩
  · simp only [insideBottom, decide_eq_false_iff_not, not_le, decide_eq_true_eq] at ha hc
    exact Or.inl ⟨ha, hc⟩
  · exact absurd rfl h

theorem straddle_top {b : Bounds} {a c : Point}
    (h : insideTop b a ≠ insideTop b c) :
    (a.2 ≤ b.maxY ∧ b.maxY < c.2) ∨ (b.maxY < a.2 ∧ c.2 ≤ b.maxY) := by
  cases ha : insideTop b a <;> cases hc : insideTop b c <;> rw [ha, hc] at h
  · exact absurd rfl h
  · simp only [insideTop, decide_eq_false_iff_not, not_le, decide_eq_true_eq] at ha hc
    exact Or.inr ⟨ha, hc⟩
  · simp only [insideTop, decide_eq_false_iff_not, not_le, decide_eq_true_eq] at ha hc
    exact Or.inl ⟨ha, hc⟩
  · exact absurd rfl h

/-- On a pair straddling the left boundary, the left pass's
interpolation parameter lies in `[0, 1]`. -/
theorem t_unit_left {b : Bounds} {a c : Point}
    (h : insideLeft b a ≠ insideLeft b c) :
    0 ≤ (b.minX - a.1) / (c.1 - a.1) ∧ (b.minX - a.1) / (c.1 - a.1) ≤ 1 := by
  rcases straddle_left h with ⟨h₁, h₂⟩ | ⟨h₁, h₂⟩
  · exact t_unit_of_between (ne_of_gt (by linarith)) (Or.inr ⟨le_of_lt h₂, h₁⟩)
  · exact t_unit_of_between (ne_of_lt (by linarith)) (Or.inl ⟨le_of_lt h₁, h₂⟩)

/-- On a pair straddling the right boundary, the right pass's
interpolation parameter lies in `[0, 1]`. -/
theorem t_unit_right {b : Bounds} {a c : Point}
    (h : insideRight b a ≠ insideRight b c) :
    0 ≤ (b.maxX - a.1) / (c.1 - a.1) ∧ (b.maxX - a.1) / (c.1 - a.1) ≤ 1 := by
  rcases straddle_right h with ⟨h₁, h₂⟩ | ⟨h₁, h₂⟩
  · exact t_unit_of_between (ne_of_lt (by linarith)) (Or.inl ⟨h₁, le_of_lt h₂⟩)
  · exact t_unit_of_between (ne_of_gt (by linarith)) (Or.inr ⟨h₂, le_of_lt h₁⟩)

/-- On a pair straddling the bottom boundary, the bottom pass's
interpolation parameter lies in `[0, 1]`. -/
theorem t_unit_bottom {b : Bounds} {a c : Point}
    (h : insideBottom b a ≠ insideBottom b c) :
    0 ≤ (b.minY - a.2) / (c.2 - a.2) ∧ (b.minY - a.2) / (c.2 - a.2) ≤ 1 := by
  rcases straddle_bottom h with ⟨h₁, h₂⟩ | ⟨h₁, h₂⟩
  · exact t_unit_of_between (ne_of_gt (by linarith)) (Or.inr ⟨le_of_lt h₂, h₁⟩)
  · exact t_unit_of_between (ne_of_lt (by linarith)) (Or.inl ⟨le_of_lt h₁, h₂⟩)

/-- On a pair straddling the top boundary, the top pass's interpolation
parameter lies in `[0, 1]`. -/
theorem t_unit_top {b : Bounds} {a c : Point}
    (h : insideTop b a ≠ insideTop b c) :
    0 ≤ (b.maxY - a.2) / (c.2 - a.2) ∧ (b.maxY - a.2) / (c.2 - a.2) ≤ 1 := by
  rcases straddle_top h with ⟨h₁, h₂⟩ | ⟨h₁, h₂⟩
  · exact t_unit_of_between (ne_of_lt (by linarith)) (Or.inl ⟨h₁, le_of_lt h₂⟩)
  · exact t_unit_of_between (ne_of_gt (by linarith)) (Or.inr ⟨h₂, le_of_lt h₁⟩)

/-! ## Containment through the four passes -/

theorem pass_left_minX {b : Bounds} {polygon : List Point} {q : Point}
    (hq : q ∈ clipEdge polygon (insideLeft b) (intersectLeft b)) :
    b.minX ≤ q.1 := by
  rcases clipEdge_mem hq with ⟨_, hin⟩ | ⟨a, c, _, _, hstrad, hval⟩
  · exact (insideLeft_iff b q).mp hin
  · rw [hval]; exact le_refl _

theorem pass_right_x {b : Bounds} {l : List Point} (hx : b.minX ≤ b.maxX)
    (hl : ∀ p ∈ l, b.minX ≤ p.1) {q : Point}
    (hq : q ∈ clipEdge l (insideRight b) (intersectRight b)) :
    b.minX ≤ q.1 ∧ q.1 ≤ b.maxX := by
  rcases clipEdge_mem hq with ⟨hmem, hin⟩ | ⟨a, c, _, _, hstrad, hval⟩
  · exact ⟨hl q hmem, (insideRight_iff b q).mp hin⟩
  · rw [hval]; exact ⟨hx, le_refl _⟩

theorem pass_bottom_xy {b : Bounds} {l : List Point}
    (hl : ∀ p ∈ l, b.minX ≤ p.1 ∧ p.1 ≤ b.maxX) {q : Point}
    (hq : q ∈ clipEdge l (insideBottom b) (intersectBottom b)) :
    (b.minX ≤ q.1 ∧ q.1 ≤ b.maxX) ∧ b.minY ≤ q.2 := by
  rcases clipEdge_mem hq with ⟨hmem, hin⟩ | ⟨a, c, ha, hc, hstrad, hval⟩
  · exact ⟨hl q hmem, (insideBottom_iff b q).mp hin⟩
  · have ht := t_unit_bottom hstrad
    have hx := interp_between (hl a ha).1 (hl a ha).2 (hl c hc).1 (hl c hc).2 ht.1 ht.2
    rw [hval]
    exact ⟨hx, le_refl _⟩

theorem pass_top_xy {b : Bounds} {l : List Point} (hy : b.minY ≤ b.maxY)
    (hl : ∀ p ∈ l, (b.minX ≤ p.1 ∧ p.1 ≤ b.maxX) ∧ b.minY ≤ p.2) {q : Point}
    (hq : q ∈ clipEdge l (insideTop b) (intersectTop b)) :
    (b.minX ≤ q.1 ∧ q.1 ≤ b.maxX) ∧ (b.minY ≤ q.2 ∧ q.2 ≤ b.maxY) := by
  rcases clipEdge_mem hq with ⟨hmem, hin⟩ | ⟨a, c, ha, hc, hstrad, hval⟩
  · exact ⟨(hl q hmem).1, (hl q hmem).2, (insideTop_iff b q).mp hin⟩
  · have ht := t_unit_top hstrad
    have hx := interp_between (hl a ha).1.1 (hl a ha).1.2 (hl c hc).1.1 (hl c hc).1.2
      ht.1 ht.2
    rw [hval]
    exact ⟨hx, hy, le_refl _⟩

/-- Containment for the full Sutherland–Hodgman clip: with well-formed
bounds, every output vertex lies inside or on the clip rectangle. -/
theorem clipPolygonToBounds_containment {b : Bounds} (hx : b.minX ≤ b.maxX)
    (hy : b.minY ≤ b.maxY) (polygon : List Point) :
    ∀ q ∈ clipPolygonToBounds polygon b, inRect b q := by
  intro q hq
  unfold clipPolygonToBounds at hq
  have h := pass_top_xy hy (fun p hp =>
    pass_bottom_xy (fun r hr =>
      pass_right_x hx (fun s hs => pass_left_minX hs) hr) hp) hq
  exact ⟨h.1.1, h.1.2, h.2.1, h.2.2⟩

/-! ## The x-passes preserve strict y-bounds

The left and right passes only ever interpolate the `y` coordinate
between the `y` coordinates of two input vertices, so a strict upper or
lower bound on all input `y`s survives these passes. -/

theorem pass_left_y_lt {b : Bounds} {l : List Point} {c : ℚ}
    (hl : ∀ p ∈ l, p.2 < c) {q : Point}
    (hq : q ∈ clipEdge l (insideLeft b) (intersectLeft b)) : q.2 < c := by
  rcases clipEdge_mem hq with ⟨hmem, _⟩ | ⟨a, d, ha, hd, hstrad, hval⟩
  · exact hl q hmem
  · have ht := t_unit_left hstrad
    rw [hval]
    exact interp_lt (hl a ha) (hl d hd) ht.1 ht.2

theorem pass_left_y_gt {b : Bounds} {l : List Point} {c : ℚ}
    (hl : ∀ p ∈ l, c < p.2) {q : Point}
    (hq : q ∈ clipEdge l (insideLeft b) (intersectLeft b)) : c < q.2 := by
  rcases clipEdge_mem hq with ⟨hmem, _⟩ | ⟨a, d, ha, hd, hstrad, hval⟩
  · exact hl q hmem
  · have ht := t_unit_left hstrad
    rw [hval]
    exact interp_gt (hl a ha) (hl d hd) ht.1 ht.2

theorem pass_right_y_lt {b : Bounds} {l : List Point} {c : ℚ}
    (hl : ∀ p ∈ l, p.2 < c) {q : Point}
    (hq : q ∈ clipEdge l (insideRight b) (intersectRight b)) : q.2 < c := by
  rcases clipEdge_mem hq with ⟨hmem, _⟩ | ⟨a, d, ha, hd, hstrad, hval⟩
  · exact hl q hmem
  · have ht := t_unit_right hstrad
    rw [hval]
    exact interp_lt (hl a ha) (hl d hd) ht.1 ht.2

theorem pass_right_y_gt {b : Bounds} {l : List Point} {c : ℚ}
    (hl : ∀ p ∈ l, c < p.2) {q : Point}
    (hq : q ∈ clipEdge l (insideRight b) (intersectRight b)) : c < q.2 := by
  rcases clipEdge_mem hq with ⟨hmem, _⟩ | ⟨a, d, ha, hd, hstrad, hval⟩
  · exact hl q hmem
  · have ht := t_unit_right hstrad
    rw [hval]
    exact interp_gt (hl a ha) (hl d hd) ht.1 ht.2

/-! ## Degenerate inputs to the full clip -/

theorem clipPolygonToBounds_nil (b : Bounds) : clipPolygonToBounds [] b = [] := rfl

theorem clipPolygonToBounds_all_inside {b : Bounds} {polygon : List Point}
    (h : ∀ p ∈ polygon, inRect b p) : clipPolygonToBounds polygon b = polygon := by
  simp only [clipPolygonToBounds]
  rw [clipEdge_all_inside polygon
    (fun p hp => (insideLeft_iff b p).mpr (h p hp).1)]
  rw [clipEdge_all_inside polygon
    (fun p hp => (insideRight_iff b p).mpr (h p hp).2.1)]
  rw [clipEdge_all_inside polygon
    (fun p hp => (insideBottom_iff b p).mpr (h p hp).2.2.1)]
  exact clipEdge_all_inside polygon
    (fun p hp => (insideTop_iff b p).mpr (h p hp).2.2.2)

theorem clipPolygonToBounds_all_left {b : Bounds} {polygon : List Point}
    (h : ∀ p ∈ polygon, p.1 < b.minX) : clipPolygonToBounds polygon b = [] := by
  simp only [clipPolygonToBounds]
  rw [clipEdge_all_outside polygon (fun p hp => by
    simp only [insideLeft, decide_eq_false_iff_not, not_le]
    exact h p hp)]
  rfl

theorem clipPolygonToBounds_all_right {b : Bounds} {polygon : List Point}
    (hx : b.minX ≤ b.maxX) (h : ∀ p ∈ polygon, b.maxX < p.1) :
    clipPolygonToBounds polygon b = [] := by
  simp only [clipPolygonToBounds]
  rw [clipEdge_all_inside polygon (fun p hp =>
    (insideLeft_iff b p).mpr (by linarith [h p hp]))]
  rw [clipEdge_all_outside polygon (fun p hp => by
    simp only [insideRight, decide_eq_false_iff_not, not_le]
    exact h p hp)]
  rfl

theorem clipPolygonToBounds_all_bottom {b : Bounds} {polygon : List Point}
    (h : ∀ p ∈ polygon, p.2 < b.minY) : clipPolygonToBounds polygon b = [] := by
  simp only [clipPolygonToBounds]
  rw [clipEdge_all_outside
    (clipEdge (clipEdge polygon (insideLeft b) (intersectLeft b))
      (insideRight b) (intersectRight b))
    (fun p hp => by
      simp only [insideBottom, decide_eq_false_iff_not, not_le]
      exact pass_right_y_lt (fun q hq => pass_left_y_lt h hq) hp)]
  rfl

theorem clipPolygonToBounds_all_top {b : Bounds} {polygon : List Point}
    (hy : b.minY ≤ b.maxY) (h : ∀ p ∈ polygon, b.maxY < p.2) :
    clipPolygonToBounds polygon b = [] := by
  simp only [clipPolygonToBounds]
  rw [clipEdge_all_inside
    (clipEdge (clipEdge polygon (insideLeft b) (intersectLeft b))
      (insideRight b) (intersectRight b))
    (fun p hp => (insideBottom_iff b p).mpr (by
      have := pass_right_y_gt (fun q hq => pass_left_y_gt h hq) hp
      linarith))]
  exact clipEdge_all_outside _ (fun p hp => by
    simp only [insideTop, decide_eq_false_iff_not, not_le]
    exact pass_right_y_gt (fun q hq => pass_left_y_gt h hq) hp)

/-! ## Structure of the processed output -/

theorem processFeature_some {bounds : Bounds} {f : Feature} {cp : CrownPolygon}
    (h : processFeature bounds f = some cp) :
    ∃ g, f.geometry = some g ∧ g.type = "Polygon" ∧
      cp.coordinates = (g.coordinates.map fun ring =>
        clipPolygonToBounds ring bounds).filter (fun ring => ring.length > 2) ∧
      cp.properties = f.properties.getD [] ∧ cp.coordinates.length > 0 := by
  unfold processFeature at h
  split at h
  next => cases h
  next g hg =>
    split at h
    next ht =>
      dsimp only at h
      split at h
      next hlen =>
        injection h with h
        exact ⟨g, hg, ht, by rw [← h], by rw [← h], by rw [← h]; exact hlen⟩
      next => cases h
    next => cases h

theorem processFeatureGeomOnly_some {bounds : Bounds} {f : Feature} {cp : CrownPolygon}
    (h : processFeatureGeomOnly bounds f = some cp) :
    ∃ g, f.geometry = some g ∧ g.type = "Polygon" ∧
      cp.coordinates = (g.coordinates.map fun ring =>
        clipPolygonToBounds ring bounds).filter (fun ring => ring.length > 2) ∧
      cp.properties = [] ∧ cp.coordinates.length > 0 := by
  unfold processFeatureGeomOnly at h
  split at h
  next => cases h
  next g hg =>
    split at h
    next ht =>
      dsimp only at h
      split at h
      next hlen =>
        injection h with h
        exact ⟨g, hg, ht, by rw [← h], by rw [← h], by rw [← h]; exact hlen⟩
      next => cases h
    next => cases h

/-- Every ring of a processed polygon (either processing mode) has more
than two vertices and is the clip of some source ring. -/
theorem ring_of_processed {bounds : Bounds} {f : Feature} {cp : CrownPolygon}
    (h : processFeature bounds f = some cp ∨ processFeatureGeomOnly bounds f = some cp)
    {ring : List Point} (hr : ring ∈ cp.coordinates) :
    ring.length > 2 ∧ ∃ r₀, ring = clipPolygonToBounds r₀ bounds := by
  have hco : ∃ g : Geometry, cp.coordinates = (g.coordinates.map fun r =>
      clipPolygonToBounds r bounds).filter (fun r => r.length > 2) := by
    rcases h with h | h
    · obtain ⟨g, _, _, hc, _, _⟩ := processFeature_some h
      exact ⟨g, hc⟩
    · obtain ⟨g, _, _, hc, _, _⟩ := processFeatureGeomOnly_some h
      exact ⟨g, hc⟩
  obtain ⟨g, hc⟩ := hco
  rw [hc] at hr
  have hmem := List.mem_filter.mp hr
  obtain ⟨r₀, _, hmap⟩ := List.mem_map.mp hmem.1
  refine ⟨by simpa using hmem.2, r₀, hmap.symm⟩

/-- Every polygon in a successfully returned load result comes from one
of the two per-feature processing modes. -/
theorem mem_of_load_ok {w : World} {path : String} {b : Bounds}
    {l : List CrownPolygon} {cp : CrownPolygon}
    (h : loadCrownShapefile w path b = .ok l) (hm : cp ∈ l) :
    ∃ f, processFeature b f = some cp ∨ processFeatureGeomOnly b f = some cp := by
  unfold loadCrownShapefile loadFromResponses at h
  split at h
  · injection h with h; subst h; cases hm
  · injection h with h; subst h; cases hm
  · split at h
    · injection h with h; subst h; cases hm
    · split at h
      · unfold loadGeometryOnly at h
        split at h
        · cases h
        · injection h with h; subst h
          obtain ⟨f, _, heq⟩ := List.mem_filterMap.mp hm
          exact ⟨f, Or.inr heq⟩
      · split at h
        · injection h with h; subst h; cases hm
        · injection h with h; subst h
          obtain ⟨f, _, heq⟩ := List.mem_filterMap.mp hm
          exact ⟨f, Or.inl heq⟩

/-! ## Order preservation: surviving vertices form a sublist -/

theorem filter_sublist_clipEdgeGo (inside : Point → Bool)
    (intersect : Point → Point → Point) (prev : Point) (l : List Point) :
    (l.filter inside).Sublist (clipEdgeGo inside intersect prev l) := by
  induction l generalizing prev with
  | nil => simp [clipEdgeGo]
  | cons curr rest ih =>
    rw [clipEdgeGo]
    cases hc : inside curr
    · rw [List.filter_cons_of_neg (by rw [hc]; exact Bool.false_ne_true)]
      exact (ih curr).trans (List.sublist_append_right _ _)
    · rw [List.filter_cons_of_pos hc]
      cases hp : inside prev <;> simp only [hc, hp, if_true, Bool.false_eq_true, if_false]
      · exact List.Sublist.cons _ (List.Sublist.cons₂ _ (ih curr))
      · exact List.Sublist.cons₂ _ (ih curr)

theorem filter_sublist_clipEdge (inside : Point → Bool)
    (intersect : Point → Point → Point) (polygon : List Point) :
    (polygon.filter inside).Sublist (clipEdge polygon inside intersect) := by
  unfold clipEdge
  rcases hlast : polygon.getLast? with _ | last
  · rw [List.getLast?_eq_none_iff.mp hlast]
    simp
  · exact filter_sublist_clipEdgeGo inside intersect last polygon

/-- Through the whole clip, the input vertices that lie inside the
rectangle survive as a sublist (same relative order) of the output. -/
theorem filter_inRect_sublist_clip (b : Bounds) (ring : List Point) :
    (ring.filter fun p => decide (inRect b p)).Sublist (clipPolygonToBounds ring b) := by
  simp only [clipPolygonToBounds]
  have h₁ := filter_sublist_clipEdge (insideLeft b) (intersectLeft b) ring
  have h₂ := (List.Sublist.filter (insideRight b) h₁).trans
    (filter_sublist_clipEdge (insideRight b) (intersectRight b) _)
  have h₃ := (List.Sublist.filter (insideBottom b) h₂).trans
    (filter_sublist_clipEdge (insideBottom b) (intersectBottom b) _)
  have h₄ := (List.Sublist.filter (insideTop b) h₃).trans
    (filter_sublist_clipEdge (insideTop b) (intersectTop b) _)
  rw [List.filter_filter, List.filter_filter, List.filter_filter] at h₄
  refine (List.filter_congr ?_ : ring.filter _ = _) ▸ h₄
  intro p _
  unfold inRect insideLeft insideRight insideBottom insideTop
  by_cases h1 : b.minX ≤ p.1 <;> by_cases h2 : p.1 ≤ b.maxX <;>
    by_cases h3 : b.minY ≤ p.2 <;> by_cases h4 : p.2 ≤ b.maxY <;>
    simp [h1, h2, h3, h4]

/-! ## The clip result depends on `intersect` only at straddling pairs -/

theorem clipEdgeGo_congr {inside : Point → Bool} {i₁ i₂ : Point → Point → Point}
    (H : ∀ a c, inside a ≠ inside c → i₁ a c = i₂ a c)
    (prev : Point) (l : List Point) :
    clipEdgeGo inside i₁ prev l = clipEdgeGo inside i₂ prev l := by
  induction l generalizing prev with
  | nil => rfl
  | cons curr rest ih =>
    rw [clipEdgeGo, clipEdgeGo, ih curr]
    cases hc : inside curr <;> cases hp : inside prev <;>
      simp only [if_true, Bool.false_eq_true, if_false]
    · rw [H prev curr (by rw [hp, hc]; simp)]
    · rw [H prev curr (by rw [hp, hc]; simp)]

theorem clipEdge_congr {inside : Point → Bool} {i₁ i₂ : Point → Point → Point}
    (H : ∀ a c, inside a ≠ inside c → i₁ a c = i₂ a c) (polygon : List Point) :
    clipEdge polygon inside i₁ = clipEdge polygon inside i₂ := by
  unfold clipEdge
  rcases polygon.getLast? with _ | last
  · rfl
  · exact clipEdgeGo_congr H last polygon

/-! ## The first-occurrence string replacement -/

theorem replaceFirstList_of_not_contains {pat rep l : List Char}
    (h : containsSub pat l = false) : replaceFirstList pat rep l = l := by
  induction l with
  | nil =>
    rw [containsSub] at h
    rw [replaceFirstList, h]
    simp
  | cons c cs ih =>
    rw [containsSub, Bool.or_eq_false_iff] at h
    rw [replaceFirstList, h.1]
    simp only [Bool.false_eq_true, if_false]
    rw [ih h.2]

theorem deriveDbfPath_of_not_contains {s : String}
    (h : containsSub ".shp".toList s.toList = false) : deriveDbfPath s = s := by
  unfold deriveDbfPath
  rw [replaceFirstList_of_not_contains h]
  rfl

/-! ## The geometry-only fallback path -/

theorem load_geomOnly_mode {w : World} {path : String} {b : Bounds}
    {s₁ : ℕ} {buf₁ : Buffer} {s₂ : ℕ} {buf₂ : Buffer}
    (h₁ : w.fetch path = .success true s₁ buf₁)
    (h₂ : w.fetch (deriveDbfPath path) = .success false s₂ buf₂) :
    loadCrownShapefile w path b = loadGeometryOnly w buf₁ b := by
  unfold loadCrownShapefile loadFromResponses
  rw [h₁, h₂]
  simp

theorem loadGeometryOnly_props {w : World} {buf : Buffer} {b : Bounds}
    {l : List CrownPolygon} (h : loadGeometryOnly w buf b = .ok l) :
    ∀ cp ∈ l, cp.properties = [] := by
  unfold loadGeometryOnly at h
  split at h
  · cases h
  · injection h with h
    subst h
    intro cp hcp
    obtain ⟨f, _, heq⟩ := List.mem_filterMap.mp hcp
    obtain ⟨g, _, _, _, hp, _⟩ := processFeatureGeomOnly_some heq
    exact hp

theorem loadGeometryOnly_ok {w : World} {buf : Buffer} {b : Bounds}
    {coll : FeatureCollection} (h : w.readGeom buf = .ok coll) :
    loadGeometryOnly w buf b =
      .ok (coll.features.filterMap (processFeatureGeomOnly b)) := by
  unfold loadGeometryOnly
  rw [h]

theorem mem_of_loadGeometryOnly_ok {w : World} {buf : Buffer} {b : Bounds}
    {l : List CrownPolygon} {cp : CrownPolygon}
    (h : loadGeometryOnly w buf b = .ok l) (hm : cp ∈ l) :
    ∃ f, processFeatureGeomOnly b f = some cp := by
  unfold loadGeometryOnly at h
  split at h
  · cases h
  · injection h with h
    subst h
    obtain ⟨f, _, heq⟩ := List.mem_filterMap.mp hm
    exact ⟨f, heq⟩

/-! ## The claims -/

/-- C1: for every bounds with `minX ≤ maxX` and `minY ≤ maxY` and every
input world and path, each ring of each `CrownPolygon` in a list
returned by `loadCrownShapefile` — and likewise by the geometry-only
fallback `loadGeometryOnly` — has at least 3 vertices. -/
theorem C1_rings_have_three_vertices {b : Bounds}
    (hx : b.minX ≤ b.maxX) (hy : b.minY ≤ b.maxY) :
    (∀ (w : World) (path : String) (l : List CrownPolygon),
      loadCrownShapefile w path b = .ok l →
      ∀ cp ∈ l, ∀ ring ∈ cp.coordinates, 3 ≤ ring.length) ∧
    (∀ (w : World) (buf : Buffer) (l : List CrownPolygon),
      loadGeometryOnly w buf b = .ok l →
      ∀ cp ∈ l, ∀ ring ∈ cp.coordinates, 3 ≤ ring.length) := by
  constructor
  · intro w path l h cp hcp ring hring
    obtain ⟨f, hf⟩ := mem_of_load_ok h hcp
    have := (ring_of_processed hf hring).1
    omega
  · intro w buf l h cp hcp ring hring
    obtain ⟨f, hf⟩ := mem_of_loadGeometryOnly_ok h hcp
    have := (ring_of_processed (Or.inr hf) hring).1
    omega

/-- Witness for C1 at a concrete world and bounds. -/
theorem C1_witness :
    loadCrownShapefile happyWorld "crowns.shp" testBounds = .ok [crownOak] ∧
    3 ≤ insideRing.length := by
  have hload : loadCrownShapefile happyWorld "crowns.shp" testBounds = .ok [crownOak] := by
    norm_num [loadCrownShapefile, loadFromResponses, happyWorld, insideFeature,
      processFeature, crownOak, testBounds, insideRing, clipPolygonToBounds, clipEdge,
      clipEdgeGo, insideLeft, insideRight, insideBottom, insideTop, intersectLeft,
      intersectRight, intersectBottom, intersectTop, List.getLast?, List.getLast,
      List.filterMap]
  refine ⟨hload, ?_⟩
  exact (C1_rings_have_three_vertices (by norm_num [testBounds])
      (by norm_num [testBounds])).1 happyWorld "crowns.shp" [crownOak] hload
    crownOak (List.mem_singleton.mpr rfl) insideRing
    (by simp [crownOak])

/-- C2: for every bounds with `minX ≤ maxX` and `minY ≤ maxY`, every
vertex of every ring produced by `clipPolygonToBounds` lies inside or
on the clip rectangle (exactly, in the rational model), and hence so
does every vertex of every ring of every `CrownPolygon` returned by
`loadCrownShapefile`. -/
theorem C2_output_vertices_in_bounds {b : Bounds}
    (hx : b.minX ≤ b.maxX) (hy : b.minY ≤ b.maxY) :
    (∀ ring : List Point, ∀ q ∈ clipPolygonToBounds ring b, inRect b q) ∧
    (∀ (w : World) (path : String) (l : List CrownPolygon),
      loadCrownShapefile w path b = .ok l →
      ∀ cp ∈ l, ∀ ring ∈ cp.coordinates, ∀ q ∈ ring, inRect b q) := by
  constructor
  · exact fun ring => clipPolygonToBounds_containment hx hy ring
  · intro w path l h cp hcp ring hring q hq
    obtain ⟨f, hf⟩ := mem_of_load_ok h hcp
    obtain ⟨-, r₀, rfl⟩ := ring_of_processed hf hring
    exact clipPolygonToBounds_containment hx hy r₀ q hq

/-- Witness for C2 at a concrete bounds, ring and output vertex. -/
theorem C2_witness : inRect testBounds ((0 : ℚ), (0 : ℚ)) := by
  have hmem : ((0 : ℚ), (0 : ℚ)) ∈ clipPolygonToBounds overlapRing testBounds := by
    have he : clipPolygonToBounds overlapRing testBounds =
        [(0, 0), (0, 1), (1, 1), (1, 0)] := by
      norm_num [clipPolygonToBounds, clipEdge, clipEdgeGo, insideLeft, insideRight,
        insideBottom, insideTop, intersectLeft, intersectRight, intersectBottom,
        intersectTop, List.getLast?, List.getLast, overlapRing, testBounds]
    rw [he]
    simp
  exact (C2_output_vertices_in_bounds (by norm_num [testBounds])
    (by norm_num [testBounds])).1 overlapRing ((0 : ℚ), (0 : ℚ)) hmem

/-- C3: the claim says no exception ever propagates to the caller and
every failure yields an empty sequence.  The code violates this: when
the geometry fetch succeeds, the attribute fetch resolves with a
non-ok status, and the geometry decode then fails, the un-awaited
`return loadGeometryOnly(...)` inside the `try` block produces a
rejected promise that the `catch` never sees, so the rejection reaches
the caller.  This theorem evaluates the model at that failing input:
the load rejects instead of resolving with `[]`. -/
theorem C3_rejection_escapes_catch :
    loadCrownShapefile dbf404ReadFailWorld "crowns.shp" testBounds = .error () ∧
    dbf404ReadFailWorld.fetch "crowns.shp" = .success true 200 0 ∧
    dbf404ReadFailWorld.fetch (deriveDbfPath "crowns.shp") = .success false 404 1 := by
  exact ⟨rfl, rfl, rfl⟩

/-- C4 counterexample: with the geometry fetch succeeding but the
attribute fetch rejecting (resource unreachable at the network level),
the load returns the empty list — not the geometry-only polygons —
even though a polygon (with empty properties) would survive
geometry-only processing.  This falsifies the claim that an
unreachable attribute resource still yields the surviving polygons. -/
theorem C4_counterexample :
    loadCrownShapefile dbfNetworkFailWorld "crowns.shp" testBounds = .ok [] ∧
    loadGeometryOnly dbfNetworkFailWorld 0 testBounds = .ok [crownOakBare] ∧
    dbfNetworkFailWorld.fetch "crowns.shp" = .success true 200 0 ∧
    dbfNetworkFailWorld.fetch (deriveDbfPath "crowns.shp") = .failure := by
  refine ⟨rfl, ?_, rfl, rfl⟩
  norm_num [loadGeometryOnly, dbfNetworkFailWorld, insideFeature, processFeatureGeomOnly,
    crownOakBare, testBounds, insideRing, clipPolygonToBounds, clipEdge, clipEdgeGo,
    insideLeft, insideRight, insideBottom, insideTop, intersectLeft, intersectRight,
    intersectBottom, intersectTop, List.getLast?, List.getLast, List.filterMap]

/-- C4 amended: geometry-only mode is entered exactly when the
attribute fetch *resolves* with a non-ok HTTP status (not when it
rejects).  In that mode the load equals `loadGeometryOnly` on the
geometry buffer; when the geometry decode succeeds the result is the
geometry-only processing of the features, and every returned
`CrownPolygon` has an empty properties mapping. -/
theorem C4_amended_geometry_only_mode {w : World} {path : String} {b : Bounds}
    {s₁ : ℕ} {buf₁ : Buffer} {s₂ : ℕ} {buf₂ : Buffer}
    (h₁ : w.fetch path = .success true s₁ buf₁)
    (h₂ : w.fetch (deriveDbfPath path) = .success false s₂ buf₂) :
    loadCrownShapefile w path b = loadGeometryOnly w buf₁ b ∧
    (∀ coll, w.readGeom buf₁ = .ok coll →
      loadCrownShapefile w path b =
        .ok (coll.features.filterMap (processFeatureGeomOnly b))) ∧
    (∀ l, loadCrownShapefile w path b = .ok l → ∀ cp ∈ l, cp.properties = []) := by
  have hmode : loadCrownShapefile w path b = loadGeometryOnly w buf₁ b :=
    load_geomOnly_mode h₁ h₂
  refine ⟨hmode, ?_, ?_⟩
  · intro coll hcoll
    rw [hmode]
    exact loadGeometryOnly_ok hcoll
  · intro l hl cp hcp
    exact loadGeometryOnly_props (hmode.symm.trans hl) cp hcp

/-- Witness for the amended C4 at a concrete world. -/
theorem C4_witness :
    loadCrownShapefile dbf404World "crowns.shp" testBounds =
      loadGeometryOnly dbf404World 0 testBounds := by
  have h₁ : dbf404World.fetch "crowns.shp" = FetchOutcome.success true 200 0 := rfl
  have h₂ : dbf404World.fetch (deriveDbfPath "crowns.shp") =
      FetchOutcome.success false 404 1 := rfl
  exact (C4_amended_geometry_only_mode h₁ h₂).1

/-- C5 counterexample: a ring all of whose vertices lie outside the
bounds need not clip to the empty ring.  The square surrounding the
whole bounds rectangle has all four vertices outside, yet its clip is
the (nonempty) rectangle itself, so "entirely outside → empty ring" is
false as stated. -/
theorem C5_counterexample :
    (¬ inRect testBounds ((-10 : ℚ), (-10 : ℚ))) ∧
    (¬ inRect testBounds ((-10 : ℚ), (10 : ℚ))) ∧
    (¬ inRect testBounds ((10 : ℚ), (10 : ℚ))) ∧
    (¬ inRect testBounds ((10 : ℚ), (-10 : ℚ))) ∧
    clipPolygonToBounds surroundRing testBounds = [(5, 5), (5, 0), (0, 0), (0, 5)] ∧
    clipPolygonToBounds surroundRing testBounds ≠ [] := by
  have he : clipPolygonToBounds surroundRing testBounds =
      [(5, 5), (5, 0), (0, 0), (0, 5)] := by
    norm_num [clipPolygonToBounds, clipEdge, clipEdgeGo, insideLeft, insideRight,
      insideBottom, insideTop, intersectLeft, intersectRight, intersectBottom,
      intersectTop, List.getLast?, List.getLast, surroundRing, testBounds]
  refine ⟨?_, ?_, ?_, ?_, he, by rw [he]; simp⟩ <;> norm_num [inRect, testBounds]

/-- C5 amended: for bounds with `minX ≤ maxX` and `minY ≤ maxY`,
clipping the empty ring yields the empty ring; clipping a ring whose
every vertex lies within the bounds returns it unchanged; and clipping
a ring that lies entirely on the outer side of a single clip boundary
(all `x < minX`, all `x > maxX`, all `y < minY`, or all `y > maxY`)
yields the empty ring.  (All vertices merely being outside the
rectangle is not sufficient, per the counterexample.) -/
theorem C5_degenerate_inputs {b : Bounds}
    (hx : b.minX ≤ b.maxX) (hy : b.minY ≤ b.maxY) :
    clipPolygonToBounds [] b = [] ∧
    (∀ ring : List Point, (∀ p ∈ ring, inRect b p) →
      clipPolygonToBounds ring b = ring) ∧
    (∀ ring : List Point,
      ((∀ p ∈ ring, p.1 < b.minX) ∨ (∀ p ∈ ring, b.maxX < p.1) ∨
       (∀ p ∈ ring, p.2 < b.minY) ∨ (∀ p ∈ ring, b.maxY < p.2)) →
      clipPolygonToBounds ring b = []) := by
  refine ⟨clipPolygonToBounds_nil b, fun ring h => clipPolygonToBounds_all_inside h, ?_⟩
  intro ring h
  rcases h with h | h | h | h
  · exact clipPolygonToBounds_all_left h
  · exact clipPolygonToBounds_all_right hx h
  · exact clipPolygonToBounds_all_bottom h
  · exact clipPolygonToBounds_all_top hy h

/-- Witness for the amended C5 at concrete bounds and rings. -/
theorem C5_witness :
    clipPolygonToBounds [] testBounds = [] ∧
    clipPolygonToBounds insideRing testBounds = insideRing ∧
    clipPolygonToBounds [((-3 : ℚ), 1), ((-2 : ℚ), 1), ((-2 : ℚ), 2)] testBounds = [] := by
  have h := C5_degenerate_inputs
    (show testBounds.minX ≤ testBounds.maxX by norm_num [testBounds])
    (show testBounds.minY ≤ testBounds.maxY by norm_num [testBounds])
  refine ⟨h.1, ?_, ?_⟩
  · exact h.2.1 insideRing (by
      intro p hp
      simp only [insideRing, List.mem_cons, List.mem_singleton] at hp
      rcases hp with rfl | rfl | rfl | rfl | h0 <;>
        first
          | exact absurd h0 (List.not_mem_nil p)
          | norm_num [inRect, testBounds])
  · exact h.2.2 _ (Or.inl (by
      intro p hp
      simp only [List.mem_cons, List.mem_singleton] at hp
      rcases hp with rfl | rfl | rfl | h0 <;>
        first
          | exact absurd h0 (List.not_mem_nil p)
          | norm_num [testBounds]))

/-- C6: clipping the ring `[[-1,-1],[-1,1],[1,1],[1,-1]]` against
bounds `{minX:0, minY:0, maxX:5, maxY:5}` yields exactly the 4-point
ring `[[0,0],[0,1],[1,1],[1,0]]` (exact equality in the rational
model), and every output vertex lies within the bounds. -/
theorem C6_partial_overlap_scenario :
    clipPolygonToBounds overlapRing testBounds = [(0, 0), (0, 1), (1, 1), (1, 0)] ∧
    (clipPolygonToBounds overlapRing testBounds).length = 4 ∧
    ∀ q ∈ clipPolygonToBounds overlapRing testBounds, inRect testBounds q := by
  have he : clipPolygonToBounds overlapRing testBounds =
      [(0, 0), (0, 1), (1, 1), (1, 0)] := by
    norm_num [clipPolygonToBounds, clipEdge, clipEdgeGo, insideLeft, insideRight,
      insideBottom, insideTop, intersectLeft, intersectRight, intersectBottom,
      intersectTop, List.getLast?, List.getLast, overlapRing, testBounds]
  refine ⟨he, by rw [he]; rfl, ?_⟩
  rw [he]
  intro q hq
  simp only [List.mem_cons, List.mem_singleton] at hq
  rcases hq with rfl | rfl | rfl | rfl | h0
  · norm_num [inRect, testBounds]
  · norm_num [inRect, testBounds]
  · norm_num [inRect, testBounds]
  · norm_num [inRect, testBounds]
  · exact absurd h0 (List.not_mem_nil q)

/-- C7: with non-degenerate image bounds, `projectToPixels` maps each
`[lon, lat]` to
`[((lon − minLon)/(maxLon − minLon))·width, ((maxLat − lat)/(maxLat − minLat))·height]`
(vertical axis flipped), and the point `(lon 10, lat 50)` with bounds
`[[40, 0], [60, 20]]` on a 1000×500 image maps to pixel `(500, 250)`. -/
theorem C7_projection_formula {minLat minLon maxLat maxLon : ℚ}
    (hlon : minLon < maxLon) (hlat : minLat < maxLat) :
    (∀ (coords : List (List Point)) (w h : ℚ),
      projectToPixels coords ((minLat, minLon), (maxLat, maxLon)) w h =
        coords.map fun ring => ring.map fun p =>
          ((p.1 - minLon) / (maxLon - minLon) * w,
           (maxLat - p.2) / (maxLat - minLat) * h)) ∧
    projectToPixels [[(10, 50)]] ((40, 0), (60, 20)) 1000 500 = [[(500, 250)]] := by
  constructor
  · intro coords w h
    rfl
  · norm_num [projectToPixels]

/-- Witness for C7 at the spec's concrete scenario. -/
theorem C7_witness :
    projectToPixels [[(10, 50)]] ((40, 0), (60, 20)) 1000 500 = [[(500, 250)]] := by
  exact (C7_projection_formula (show (0 : ℚ) < 20 by norm_num)
    (show (40 : ℚ) < 60 by norm_num)).2

/-- C8: order preservation.  (i) The input vertices retained by
`clipPolygonToBounds` (those inside the rectangle) appear in the output
in their original relative order (as a sublist).  (ii) The surviving
rings of a feature are kept in original ring order: the coordinates of
a processed `CrownPolygon` form a sublist of the clipped rings in
source order.  (iii) `projectToPixels` returns exactly one ring per
input ring and one pixel pair per input point, in the same positions. -/
theorem C8_order_preservation :
    (∀ (b : Bounds) (ring : List Point),
      (ring.filter fun p => decide (inRect b p)).Sublist
        (clipPolygonToBounds ring b)) ∧
    (∀ (b : Bounds) (f : Feature) (cp : CrownPolygon) (g : Geometry),
      processFeature b f = some cp → f.geometry = some g →
      cp.coordinates.Sublist
        (g.coordinates.map fun r => clipPolygonToBounds r b)) ∧
    (∀ (coords : List (List Point)) (ib : (ℚ × ℚ) × (ℚ × ℚ)) (w h : ℚ),
      (projectToPixels coords ib w h).length = coords.length ∧
      (∀ i : ℕ, ((projectToPixels coords ib w h)[i]?).map List.length =
        (coords[i]?).map List.length) ∧
      (∀ i j : ℕ, ((projectToPixels coords ib w h)[i]?.bind fun r => r[j]?) =
        ((coords[i]?.bind fun r => r[j]?).map (projPoint ib w h)))) := by
  refine ⟨fun b ring => filter_inRect_sublist_clip b ring, ?_, ?_⟩
  · intro b f cp g hp hg
    obtain ⟨g', hg', _, hc, _, _⟩ := processFeature_some hp
    rw [hg] at hg'
    injection hg' with hg'
    subst hg'
    rw [hc]
    exact List.filter_sublist _
  · intro coords ib w h
    have heq : projectToPixels coords ib w h =
        coords.map fun ring => ring.map (projPoint ib w h) := rfl
    refine ⟨by rw [heq]; simp, ?_, ?_⟩
    · intro i
      rw [heq, List.getElem?_map]
      cases coords[i]? <;> simp
    · intro i j
      rw [heq, List.getElem?_map]
      cases coords[i]? with
      | none => rfl
      | some ring => exact List.getElem?_map (projPoint ib w h) ring j

/-- Witness for C8 at a concrete feature. -/
theorem C8_witness :
    crownOak.coordinates.Sublist
      ([insideRing].map fun r => clipPolygonToBounds r testBounds) := by
  have hp : processFeature testBounds insideFeature = some crownOak := by
    norm_num [processFeature, insideFeature, crownOak, testBounds, insideRing,
      clipPolygonToBounds, clipEdge, clipEdgeGo, insideLeft, insideRight,
      insideBottom, insideTop, intersectLeft, intersectRight, intersectBottom,
      intersectTop, List.getLast?, List.getLast]
  exact C8_order_preservation.2.1 testBounds insideFeature crownOak
    ⟨"Polygon", [insideRing]⟩ hp rfl

/-- C9: the clip result depends on each pass's `intersect` function
only at straddling pairs (one endpoint inside the half-plane, the
other outside), so any functions agreeing with the source's
interpolation formulas on straddling pairs produce the same output —
the division-by-zero branch of `intersect` is unreachable.  Moreover
on every straddling pair the interpolation divisor (`x2 − x1` for the
vertical boundaries, `y2 − y1` for the horizontal ones) is nonzero.
Totality for every finite ring holds by construction of the model. -/
theorem C9_intersect_only_straddling (b : Bounds) :
    (∀ gL gR gB gT : Point → Point → Point,
      (∀ a c, insideLeft b a ≠ insideLeft b c → gL a c = intersectLeft b a c) →
      (∀ a c, insideRight b a ≠ insideRight b c → gR a c = intersectRight b a c) →
      (∀ a c, insideBottom b a ≠ insideBottom b c → gB a c = intersectBottom b a c) →
      (∀ a c, insideTop b a ≠ insideTop b c → gT a c = intersectTop b a c) →
      ∀ ring : List Point,
        clipEdge (clipEdge (clipEdge (clipEdge ring (insideLeft b) gL)
          (insideRight b) gR) (insideBottom b) gB) (insideTop b) gT =
          clipPolygonToBounds ring b) ∧
    (∀ a c : Point, insideLeft b a ≠ insideLeft b c → c.1 - a.1 ≠ 0) ∧
    (∀ a c : Point, insideRight b a ≠ insideRight b c → c.1 - a.1 ≠ 0) ∧
    (∀ a c : Point, insideBottom b a ≠ insideBottom b c → c.2 - a.2 ≠ 0) ∧
    (∀ a c : Point, insideTop b a ≠ insideTop b c → c.2 - a.2 ≠ 0) := by
  refine ⟨?_, ?_, ?_, ?_, ?_⟩
  · intro gL gR gB gT hL hR hB hT ring
    simp only [clipPolygonToBounds]
    rw [clipEdge_congr hL, clipEdge_congr hR, clipEdge_congr hB, clipEdge_congr hT]
  · intro a c h
    rcases straddle_left h with ⟨h₁, h₂⟩ | ⟨h₁, h₂⟩
    · exact sub_ne_zero_of_ne (by intro he; rw [he] at h₂; linarith)
    · exact sub_ne_zero_of_ne (by intro he; rw [he] at h₂; linarith)
  · intro a c h
    rcases straddle_right h with ⟨h₁, h₂⟩ | ⟨h₁, h₂⟩
    · exact sub_ne_zero_of_ne (by intro he; rw [he] at h₂; linarith)
    · exact sub_ne_zero_of_ne (by intro he; rw [he] at h₂; linarith)
  · intro a c h
    rcases straddle_bottom h with ⟨h₁, h₂⟩ | ⟨h₁, h₂⟩
    · exact sub_ne_zero_of_ne (by intro he; rw [he] at h₂; linarith)
    · exact sub_ne_zero_of_ne (by intro he; rw [he] at h₂; linarith)
  · intro a c h
    rcases straddle_top h with ⟨h₁, h₂⟩ | ⟨h₁, h₂⟩
    · exact sub_ne_zero_of_ne (by intro he; rw [he] at h₂; linarith)
    · exact sub_ne_zero_of_ne (by intro he; rw [he] at h₂; linarith)

/-- Witness for C9: the extensionality part applied to the source's
own intersect functions, and the nonzero-divisor part at a concrete
straddling pair. -/
theorem C9_witness :
    clipEdge (clipEdge (clipEdge (clipEdge overlapRing
        (insideLeft testBounds) (intersectLeft testBounds))
        (insideRight testBounds) (intersectRight testBounds))
        (insideBottom testBounds) (intersectBottom testBounds))
      (insideTop testBounds) (intersectTop testBounds) =
      clipPolygonToBounds overlapRing testBounds ∧
    (((-1 : ℚ), (0 : ℚ)) : Point).1 - (((1 : ℚ), (0 : ℚ)) : Point).1 ≠ 0 := by
  constructor
  · exact (C9_intersect_only_straddling testBounds).1 _ _ _ _
      (fun _ _ _ => rfl) (fun _ _ _ => rfl) (fun _ _ _ => rfl) (fun _ _ _ => rfl)
      overlapRing
  · exact (C9_intersect_only_straddling testBounds).2.1 (1, 0) (-1, 0)
      (by norm_num [insideLeft, testBounds])

/-- C10: the attribute path is the geometry path with the first
occurrence of `".shp"` replaced by `".dbf"` (concretely,
`"a.shp.shp"` maps to `"a.dbf.shp"`); when the geometry path does not
contain `".shp"` the derived path equals the geometry path, and the
load then fetches the same resource twice, using it as both the
geometry and the attribute buffer. -/
theorem C10_dbf_path_derivation :
    deriveDbfPath "a.shp.shp" = "a.dbf.shp" ∧
    (∀ s : String, containsSub ".shp".toList s.toList = false →
      deriveDbfPath s = s) ∧
    (∀ (w : World) (path : String) (b : Bounds),
      containsSub ".shp".toList path.toList = false →
      loadCrownShapefile w path b =
        loadFromResponses w (w.fetch path) (w.fetch path) b) := by
  refine ⟨by decide, fun s h => deriveDbfPath_of_not_contains h, ?_⟩
  intro w path b h
  unfold loadCrownShapefile
  rw [deriveDbfPath_of_not_contains h]

/-- Witness for C10 at a concrete extension-free path. -/
theorem C10_witness :
    deriveDbfPath "crowns.geojson" = "crowns.geojson" ∧
    loadCrownShapefile happyWorld "crowns.geojson" testBounds =
      loadFromResponses happyWorld (happyWorld.fetch "crowns.geojson")
        (happyWorld.fetch "crowns.geojson") testBounds := by
  constructor
  · exact C10_dbf_path_derivation.2.1 "crowns.geojson" (by decide)
  · exact C10_dbf_path_derivation.2.2 happyWorld "crowns.geojson" testBounds (by decide)

end Canopy
